import Mathlib

/-!
# NexusML dynamic-batching inference proxy — verification development

Shallow embedding of the batching engine of the NexusML data-plane proxy
(`internal/batcher/batcher.go`) and of the backend dispatch adapter
(`internal/client`, the `ModelClient`), together with proofs of the
behavioural properties claimed for them.

Concurrency is modelled by an explicit small-step interpreter: the
scheduler's choices (which `select` branch fires, when `Submit`, `Stop`
and the worker run) are an explicit list of actions, and theorems
quantify over all such schedules.  Byte slices are `List Nat`, Go maps
built by repeated assignment are folds producing lookup functions, Go
channels of capacity one are explicit `Slot` records, and `float64`
arithmetic on the metrics is modelled over `ℚ`.
-/

namespace NexusML

/-- Errors distinguished by the proxy.  `responseNotFound` embeds the
`ErrResponseNotFound` constant of `batcher.go`; `status` embeds the
error built from a non-200 backend status; `backend` embeds the error
materialised from a per-response `error` field; `generic` stands for an
arbitrary error value produced by marshalling, transport, read or
unmarshal failures. -/
inductive Err where
  | responseNotFound : Err
  | status (code : Nat) (body : String) : Err
  | backend (msg : String) : Err
  | generic (msg : String) : Err
deriving DecidableEq, Repr

/-- `batcher.Request` (batcher.go:12-16): correlation id, opaque payload,
and a private reply slot.  The slot itself lives in the system state; the
`tok` field is the identity of the request's reply channel (each call to
`Submit` allocates a fresh one). -/
structure Request where
  id : String
  payload : List Nat
  tok : Nat
deriving DecidableEq, Repr

/-- `batcher.Response` (batcher.go:19-23): id, opaque data, error. -/
structure Response where
  ID : String
  Data : List Nat
  Error : Option Err
deriving DecidableEq, Repr

/-! ## Response routing (batcher.go:163-179)

`processBatch` builds a Go map `responseMap` by iterating the response
list and assigning `responseMap[resp.ID] = resp`; a later assignment to
the same key overwrites the earlier one.  We embed the map as a lookup
function built by the same left fold. -/

/-- One Go map assignment `m[r.ID] = r`. -/
def mapAssign (m : String → Option Response) (r : Response) : String → Option Response :=
  fun k => if k = r.ID then some r else m k

/-- The `responseMap` of `processBatch`, built by folding assignments
over the response list in order. -/
def responseMapFun (rs : List Response) : String → Option Response :=
  rs.foldl mapAssign (fun _ => none)

/-- The Response delivered to one Request by `processBatch`
(batcher.go:169-178): the map entry for its id if present, otherwise a
synthesized `ErrResponseNotFound` response. -/
def routed (rs : List Response) (req : Request) : Response :=
  match responseMapFun rs req.id with
  | some r => r
  | none => { ID := req.id, Data := [], Error := some Err.responseNotFound }

/-- The per-request deliveries performed by `processBatch`, in batch
order: each Request is paired with the Response sent to its slot. -/
def deliveries (batch : List Request) (rs : List Response) : List (Request × Response) :=
  batch.map (fun req => (req, routed rs req))

/-! ## Reply slots

A reply slot is `make(chan Response, 1)` (batcher.go:83): a buffer of
capacity one plus a closed flag.  A send on a closed channel or a send
that exceeds the capacity would panic or block; both are modelled as
failure (`none`). -/

/-- The buffer capacity of a reply slot (`make(chan Response, 1)`). -/
def slotCap : Nat := 1

/-- State of one reply channel. -/
structure Slot where
  buf : List Response
  closed : Bool
deriving DecidableEq, Repr

/-- A freshly allocated reply slot: empty buffer, open. -/
def freshSlot : Slot := { buf := [], closed := false }

/-- Operations `processBatch` performs on a reply slot. -/
inductive SlotOp where
  | send (r : Response) : SlotOp
  | close : SlotOp
deriving DecidableEq, Repr

/-- A channel send: fails (`none`) if the channel is closed (panic) or
the buffer is full (the sender would block). -/
def slotSend (s : Slot) (r : Response) : Option Slot :=
  if s.closed then none
  else if slotCap ≤ s.buf.length then none
  else some { buf := s.buf ++ [r], closed := s.closed }

/-- Closing a channel: fails (`none`) if already closed (panic). -/
def slotClose (s : Slot) : Option Slot :=
  if s.closed then none else some { buf := s.buf, closed := true }

/-- Run a list of slot operations, propagating failure. -/
def runOps (s : Slot) : List SlotOp → Option Slot
  | [] => some s
  | SlotOp.send r :: ops =>
    match slotSend s r with
    | some s2 => runOps s2 ops
    | none => none
  | SlotOp.close :: ops =>
    match slotClose s with
    | some s2 => runOps s2 ops
    | none => none

/-! ## The backend dispatch adapter (`ModelClient.ProcessBatch`)

The adapter serialises the batch, performs one HTTP POST, and parses the
reply.  The outcome of each effectful step is supplied by an `HttpWorld`
record; the control flow of `ProcessBatch` is embedded faithfully: the
first failing step short-circuits into `errorResponses`. -/

/-- One `(id, result, error)` tuple of the backend reply
(`SingleResponse` in the client).  An absent `result` is `[]`, an absent
`error` is `""`, matching the `omitempty` JSON encoding. -/
structure SingleResponse where
  ID : String
  Result : List Nat
  Error : String
deriving DecidableEq, Repr

/-- Outcomes of the effectful steps of one `ProcessBatch` call, in the
order the code performs them: marshal, request construction, transport,
body read, then the HTTP status and the unmarshal outcome of the body. -/
structure HttpWorld where
  marshalErr : Option Err
  newRequestErr : Option Err
  transportErr : Option Err
  readErr : Option Err
  status : Nat
  body : String
  unmarshalResult : Except Err (List SingleResponse)
deriving Repr

/-- `ModelClient.errorResponses`: one error Response per Request of the
batch, carrying that Request's id and the shared error. -/
def errorResponses (batch : List Request) (e : Err) : List Response :=
  batch.map (fun req => { ID := req.id, Data := [], Error := some e })

/-- The success-path conversion of backend tuples into
`batcher.Response` values (client, lines 186-195): `Data` is set to the
tuple's `Result` unconditionally, and `Error` is set exactly when the
tuple's error string is non-empty. -/
def convertResponses (tuples : List SingleResponse) : List Response :=
  tuples.map (fun t =>
    { ID := t.ID
      Data := t.Result
      Error := if t.Error ≠ "" then some (Err.backend t.Error) else none })

/-- `ModelClient.ProcessBatch` (client, lines 117-198): each failure
point short-circuits into `errorResponses`; on full success the tuples
are converted. -/
def ProcessBatch (batch : List Request) (w : HttpWorld) : List Response :=
  match w.marshalErr with
  | some e => errorResponses batch e
  | none =>
    match w.newRequestErr with
    | some e => errorResponses batch e
    | none =>
      match w.transportErr with
      | some e => errorResponses batch e
      | none =>
        match w.readErr with
        | some e => errorResponses batch e
        | none =>
          if w.status ≠ 200 then errorResponses batch (Err.status w.status w.body)
          else
            match w.unmarshalResult with
            | Except.error e => errorResponses batch e
            | Except.ok tuples => convertResponses tuples

/-- The dispatch-layer error of a world, if any: mirrors the failure
cascade of `ProcessBatch`.  `none` means the success path is reached. -/
def dispatchFailure (w : HttpWorld) : Option Err :=
  match w.marshalErr with
  | some e => some e
  | none =>
    match w.newRequestErr with
    | some e => some e
    | none =>
      match w.transportErr with
      | some e => some e
      | none =>
        match w.readErr with
        | some e => some e
        | none =>
          if w.status ≠ 200 then some (Err.status w.status w.body)
          else
            match w.unmarshalResult with
            | Except.error e => some e
            | Except.ok _ => none

/-! ## The batcher as a scheduler-driven machine

`batchLoop` / `collectBatch` (batcher.go:102-150) are a loop around two
`select`s.  We fuse them into a state machine: `Phase.idle` is the first
`select` of `collectBatch` (wait on {queue, stop}); `Phase.filling acc`
is the collection loop (wait on {queue, timer, stop}, guarded by
`len(acc) < maxBatchSize`).  An `Act` names which ready branch the
scheduler fires, or an external `Submit` / `Stop` step.  Invalid actions
(for example a timer event while no timer is armed, or a worker step
after the worker returned) leave the state unchanged. -/

/-- Worker position inside `collectBatch`. -/
inductive Phase where
  | idle : Phase
  | filling (acc : List Request) : Phase
deriving DecidableEq, Repr

/-- The metrics block of the `Batcher` (batcher.go:44-47).  The spec
rules out counter overflow, so `int64` is `Int`; the `float64` average
is modelled over `ℚ`. -/
structure Metrics where
  totalRequests : Int
  totalBatches : Int
  avgBatchSize : ℚ
deriving DecidableEq, Repr

/-- `Batcher.updateMetrics` (batcher.go:185-192). -/
def updateMetrics (m : Metrics) (batchSize : Nat) : Metrics :=
  { totalRequests := m.totalRequests + batchSize
    totalBatches := m.totalBatches + 1
    avgBatchSize := ((m.totalRequests + batchSize : Int) : ℚ) / ((m.totalBatches + 1 : Int) : ℚ) }

/-- Whole-system state: the `requestChan` buffer (`queue`), the
`stopChan` flag, whether `batchLoop` has returned, the worker phase, the
list of batches handed to the process function, every reply slot ever
allocated (keyed by channel identity), the next fresh channel identity,
the metrics, and a `stuck` flag that records a channel operation that
would panic or block forever (proved unreachable). -/
structure Sys where
  maxBatchSize : Nat
  queue : List Request
  stopped : Bool
  workerDone : Bool
  phase : Phase
  dispatched : List (List Request)
  slots : List (Nat × Slot)
  nextTok : Nat
  metrics : Metrics
  stuck : Bool
deriving DecidableEq, Repr

/-- Scheduler actions: a caller running `Submit`'s enqueue, `Stop`
closing `stopChan`, and the three `select` branches the worker can
take. -/
inductive Act where
  | submit (id : String) (payload : List Nat) : Act
  | stop : Act
  | workerArr : Act
  | workerTimer : Act
  | workerStop : Act
deriving DecidableEq, Repr

/-- The initial state built by `New` (batcher.go:51-59): empty queue of
capacity `maxBatchSize * 10`, open stop channel, zeroed metrics. -/
def initSys (maxBatchSize : Nat) : Sys :=
  { maxBatchSize := maxBatchSize
    queue := []
    stopped := false
    workerDone := false
    phase := Phase.idle
    dispatched := []
    slots := []
    nextTok := 0
    metrics := { totalRequests := 0, totalBatches := 0, avgBatchSize := 0 }
    stuck := false }

/-- Association-list lookup for the slot store. -/
def lookupSlot : List (Nat × Slot) → Nat → Option Slot
  | [], _ => none
  | p :: rest, k => if p.1 = k then some p.2 else lookupSlot rest k

/-- Replace the slot stored at a key. -/
def updateSlot : List (Nat × Slot) → Nat → Slot → List (Nat × Slot)
  | [], _, _ => []
  | p :: rest, k, w =>
    if p.1 = k then (p.1, w) :: updateSlot rest k w else p :: updateSlot rest k w

/-- Deliver one Response: the send followed by the close performed for
one Request in `processBatch` (batcher.go:169-178).  A missing channel,
a blocked send or a double close poisons the state. -/
def sendAndClose (s : Sys) (tok : Nat) (r : Response) : Sys :=
  match lookupSlot s.slots tok with
  | none => { s with stuck := true }
  | some sl =>
    match runOps sl [SlotOp.send r, SlotOp.close] with
    | none => { s with stuck := true }
    | some sl2 => { s with slots := updateSlot s.slots tok sl2 }

/-- `processBatch` + the surrounding `batchLoop` iteration
(batcher.go:105-114, 152-183): for a non-empty batch, call the process
function, route every Response into its reply slot, record the dispatch
and update the metrics; then the worker is back at the idle wait. -/
def dispatchBatch (pf : List Request → List Response) (s : Sys) (acc : List Request) : Sys :=
  if 0 < acc.length then
    let s2 := (deliveries acc (pf acc)).foldl (fun st pr => sendAndClose st pr.1.tok pr.2) s
    { s2 with
        phase := Phase.idle
        dispatched := s2.dispatched ++ [acc]
        metrics := updateMetrics s2.metrics acc.length }
  else { s with phase := Phase.idle }

/-- After appending a request, `collectBatch`'s loop condition
`len(batch.Requests) < b.maxBatchSize` is re-checked: a full batch is
returned (and processed) at once, otherwise collection continues. -/
def closeIfFull (pf : List Request → List Response) (s : Sys) (acc : List Request) : Sys :=
  if s.maxBatchSize ≤ acc.length then dispatchBatch pf s acc
  else { s with phase := Phase.filling acc }

/-- One scheduler step. -/
def stepA (pf : List Request → List Response) (s : Sys) : Act → Sys
  | Act.submit id payload =>
    -- Submit's first select (batcher.go:86-91): enqueue when the buffer
    -- has room.  Note: no check of the stop signal.
    if s.queue.length < s.maxBatchSize * 10 then
      { s with
          queue := s.queue ++ [{ id := id, payload := payload, tok := s.nextTok }]
          slots := s.slots ++ [(s.nextTok, freshSlot)]
          nextTok := s.nextTok + 1 }
    else s
  | Act.stop => { s with stopped := true }
  | Act.workerArr =>
    if s.workerDone then s
    else
      match s.phase, s.queue with
      | Phase.idle, r :: rest => closeIfFull pf { s with queue := rest } [r]
      | Phase.filling acc, r :: rest =>
        if acc.length < s.maxBatchSize then
          closeIfFull pf { s with queue := rest } (acc ++ [r])
        else s
      | _, [] => s
  | Act.workerTimer =>
    if s.workerDone then s
    else
      match s.phase with
      | Phase.filling acc => dispatchBatch pf s acc
      | Phase.idle => s
  | Act.workerStop =>
    if s.workerDone then s
    else if s.stopped then
      match s.phase with
      | Phase.idle => { s with workerDone := true }
      | Phase.filling acc => dispatchBatch pf s acc
    else s

/-- A whole run: fold a schedule over the initial state. -/
def run (pf : List Request → List Response) (maxBatchSize : Nat) (acts : List Act) : Sys :=
  acts.foldl (stepA pf) (initSys maxBatchSize)

/-- `Batcher.Metrics` (batcher.go:195-199): snapshot of the three
counters under the read lock. -/
def metricsSnapshot (s : Sys) : Int × Int × ℚ :=
  (s.metrics.totalRequests, s.metrics.totalBatches, s.metrics.avgBatchSize)

/-- A process function that echoes every request's payload, used for
concrete runs. -/
def echoPf : List Request → List Response :=
  fun batch => batch.map (fun q => { ID := q.id, Data := q.payload, Error := none })

/-! ## Submit's control flow (batcher.go:79-99)

`Submit` runs two `select`s: enqueue versus `ctx.Done()`, then reply
receive versus `ctx.Done()`.  A `SelectOutcome` names the branch the
scheduler resolved. -/

/-- Which branch of a two-way `select` against `ctx.Done()` fired. -/
inductive SelectOutcome (α : Type) where
  | recv (a : α) : SelectOutcome α
  | ctxDone : SelectOutcome α
deriving DecidableEq, Repr

/-- The error value `Submit` returns: the context's cancellation error,
or the Error field of the delivered Response. -/
inductive SubmitErr where
  | ctxErr : SubmitErr
  | respErr (e : Err) : SubmitErr
deriving DecidableEq, Repr

/-- `Batcher.Submit`'s return value and whether the Request was
enqueued, as a function of the two select resolutions: the first
`ctx.Done()` returns the cancellation with nothing enqueued; after a
successful enqueue, `ctx.Done()` returns the cancellation with the
Request left in the pipeline; otherwise the delivered Response's
`(Data, Error)` pair is returned. -/
def submitGo (enq : SelectOutcome Unit) (await : SelectOutcome Response) :
    (Option (List Nat) × Option SubmitErr) × Bool :=
  match enq with
  | SelectOutcome.ctxDone => ((none, some SubmitErr.ctxErr), false)
  | SelectOutcome.recv _ =>
    match await with
    | SelectOutcome.ctxDone => ((none, some SubmitErr.ctxErr), true)
    | SelectOutcome.recv resp =>
      ((some resp.Data, resp.Error.map SubmitErr.respErr), true)

/-! ## Slot-store lemmas -/

theorem lookupSlot_mem_keys {sl : List (Nat × Slot)} {k : Nat} {v : Slot}
    (h : lookupSlot sl k = some v) : k ∈ sl.map Prod.fst := by
  induction sl with
  | nil => simp [lookupSlot] at h
  | cons p rest ih =>
    rw [lookupSlot] at h
    by_cases hk : p.1 = k
    · simp [hk]
    · simp only [hk, if_false] at h
      simp [ih h]

theorem lookupSlot_append_of_some {sl l2 : List (Nat × Slot)} {k : Nat} {v : Slot}
    (h : lookupSlot sl k = some v) : lookupSlot (sl ++ l2) k = some v := by
  induction sl with
  | nil => simp [lookupSlot] at h
  | cons p rest ih =>
    rw [lookupSlot] at h
    rw [List.cons_append, lookupSlot]
    by_cases hk : p.1 = k
    · simpa [hk] using h
    · simp only [hk, if_false] at h ⊢
      exact ih h

theorem lookupSlot_append_of_notmem {sl l2 : List (Nat × Slot)} {k : Nat}
    (h : k ∉ sl.map Prod.fst) : lookupSlot (sl ++ l2) k = lookupSlot l2 k := by
  induction sl with
  | nil => simp
  | cons p rest ih =>
    simp only [List.map_cons, List.mem_cons] at h
    push_neg at h
    rw [List.cons_append, lookupSlot, if_neg (Ne.symm h.1)]
    exact ih h.2

theorem updateSlot_keys (sl : List (Nat × Slot)) (k : Nat) (w : Slot) :
    (updateSlot sl k w).map Prod.fst = sl.map Prod.fst := by
  induction sl with
  | nil => rfl
  | cons p rest ih =>
    rw [updateSlot]
    by_cases hk : p.1 = k <;> simp [hk, ih]

theorem lookupSlot_update_self {sl : List (Nat × Slot)} {k : Nat} {v : Slot} (w : Slot)
    (h : lookupSlot sl k = some v) : lookupSlot (updateSlot sl k w) k = some w := by
  induction sl with
  | nil => simp [lookupSlot] at h
  | cons p rest ih =>
    rw [lookupSlot] at h
    by_cases hk : p.1 = k
    · rw [updateSlot, if_pos hk, lookupSlot]
      simp [hk]
    · rw [if_neg hk] at h
      rw [updateSlot, if_neg hk, lookupSlot, if_neg hk]
      exact ih h

theorem lookupSlot_update_other {sl : List (Nat × Slot)} {k k2 : Nat} (w : Slot)
    (h : k2 ≠ k) : lookupSlot (updateSlot sl k w) k2 = lookupSlot sl k2 := by
  induction sl with
  | nil => rfl
  | cons p rest ih =>
    by_cases hk : p.1 = k
    · rw [updateSlot, if_pos hk, lookupSlot, lookupSlot]
      have hne : ¬ ((p.1, w).1 = k2) := by
        simp only []
        rw [hk]
        exact fun hh => h hh.symm
      rw [if_neg hne]
      have hne2 : ¬ (p.1 = k2) := by rw [hk]; exact fun hh => h hh.symm
      rw [if_neg hne2]
      exact ih
    · rw [updateSlot, if_neg hk, lookupSlot, lookupSlot]
      by_cases hk2 : p.1 = k2
      · rw [if_pos hk2, if_pos hk2]
      · rw [if_neg hk2, if_neg hk2]
        exact ih

/-! ## Response-map lemmas

The Go map built by `processBatch` is a left fold of assignments; the
lemmas below capture that a later assignment overwrites an earlier one
(`last wins`) and that every entry comes from the response list. -/

theorem foldl_mapAssign_no_match {rs : List Response} {k : String}
    (m0 : String → Option Response) (h : ∀ r ∈ rs, r.ID ≠ k) :
    rs.foldl mapAssign m0 k = m0 k := by
  induction rs generalizing m0 with
  | nil => rfl
  | cons r rest ih =>
    rw [List.foldl_cons]
    rw [ih (mapAssign m0 r) (fun r2 hr2 => h r2 (List.mem_cons_of_mem r hr2))]
    have hne : r.ID ≠ k := h r (List.mem_cons_self r rest)
    simp only [mapAssign]
    exact if_neg fun hh => hne hh.symm

theorem foldl_mapAssign_some {rs : List Response} {k : String} {r : Response}
    (m0 : String → Option Response) (h : rs.foldl mapAssign m0 k = some r) :
    (r ∈ rs ∧ r.ID = k) ∨ m0 k = some r := by
  induction rs generalizing m0 with
  | nil => exact Or.inr h
  | cons x rest ih =>
    rw [List.foldl_cons] at h
    rcases ih (mapAssign m0 x) h with h1 | h1
    · exact Or.inl ⟨List.mem_cons_of_mem x h1.1, h1.2⟩
    · by_cases hk : k = x.ID
      · simp only [mapAssign, hk, if_pos rfl] at h1
        obtain rfl : x = r := by injection h1
        exact Or.inl ⟨List.mem_cons_self x rest, hk.symm⟩
      · simp only [mapAssign, hk, if_false] at h1
        exact Or.inr h1

theorem foldl_mapAssign_isSome {rs : List Response} {k : String}
    (m0 : String → Option Response) (h : ∃ r ∈ rs, r.ID = k) :
    ∃ r2, rs.foldl mapAssign m0 k = some r2 := by
  induction rs generalizing m0 with
  | nil => simp at h
  | cons x rest ih =>
    rw [List.foldl_cons]
    by_cases hrest : ∃ y ∈ rest, y.ID = k
    · exact ih (mapAssign m0 x) hrest
    · push_neg at hrest
      rw [foldl_mapAssign_no_match (mapAssign m0 x) hrest]
      obtain ⟨r, hr, hk⟩ := h
      rcases List.mem_cons.mp hr with rfl | h2
      · exact ⟨r, by simp [mapAssign, hk]⟩
      · exact absurd hk (hrest r h2)

theorem responseMapFun_last {rs1 rs2 : List Response} {k : String} {r : Response}
    (h2 : ∀ r2 ∈ rs2, r2.ID ≠ k) (hk : r.ID = k) :
    responseMapFun (rs1 ++ r :: rs2) k = some r := by
  rw [responseMapFun, List.foldl_append, List.foldl_cons]
  rw [foldl_mapAssign_no_match _ h2]
  simp [mapAssign, hk]

/-! ## Delivering a batch to the reply slots -/

/-- The tokens of `deliveries` are the tokens of the batch. -/
theorem deliveries_toks (batch : List Request) (rs : List Response) :
    (deliveries batch rs).map (fun p => p.1.tok) = batch.map Request.tok := by
  simp [deliveries, List.map_map, Function.comp]

/-- Delivering one Response to a fresh slot is exactly one buffered send
followed by a close; it cannot block or panic. -/
theorem sendAndClose_fresh (t : Sys) (k : Nat) (r : Response)
    (h : lookupSlot t.slots k = some freshSlot) :
    sendAndClose t k r =
      { t with slots := updateSlot t.slots k { buf := [r], closed := true } } := by
  unfold sendAndClose
  rw [h]
  rfl

/-- Specification of the delivery fold of `processBatch`: given
pairwise-distinct tokens whose slots are all fresh, every listed slot
ends with exactly the listed Response buffered and the slot closed,
every other slot is untouched, no operation blocks, and no other state
component changes. -/
theorem writeAll_spec (ps : List (Request × Response)) :
    ∀ t : Sys,
    (ps.map (fun p => p.1.tok)).Nodup →
    (∀ p ∈ ps, lookupSlot t.slots p.1.tok = some freshSlot) →
    (let u := ps.foldl (fun st pr => sendAndClose st pr.1.tok pr.2) t
     u.maxBatchSize = t.maxBatchSize ∧ u.queue = t.queue ∧ u.stopped = t.stopped ∧
     u.workerDone = t.workerDone ∧ u.phase = t.phase ∧ u.dispatched = t.dispatched ∧
     u.nextTok = t.nextTok ∧ u.metrics = t.metrics ∧ u.stuck = t.stuck ∧
     u.slots.map Prod.fst = t.slots.map Prod.fst ∧
     (∀ p ∈ ps, lookupSlot u.slots p.1.tok = some { buf := [p.2], closed := true }) ∧
     (∀ k, k ∉ ps.map (fun p => p.1.tok) → lookupSlot u.slots k = lookupSlot t.slots k)) := by
  induction ps with
  | nil =>
    intro t _ _
    refine ⟨rfl, rfl, rfl, rfl, rfl, rfl, rfl, rfl, rfl, rfl, ?_, ?_⟩
    · intro p hp; cases hp
    · intro k _; rfl
  | cons q qs ih =>
    intro t hnodup hfresh
    have hqfresh : lookupSlot t.slots q.1.tok = some freshSlot :=
      hfresh q (List.mem_cons_self q qs)
    have hstep := sendAndClose_fresh t q.1.tok q.2 hqfresh
    set t2 : Sys :=
      { t with slots := updateSlot t.slots q.1.tok { buf := [q.2], closed := true } } with ht2
    have hnodup2 : (qs.map (fun p => p.1.tok)).Nodup := (List.nodup_cons.mp hnodup).2
    have hqnotin : q.1.tok ∉ qs.map (fun p => p.1.tok) := (List.nodup_cons.mp hnodup).1
    have hfresh2 : ∀ p ∈ qs, lookupSlot t2.slots p.1.tok = some freshSlot := by
      intro p hp
      have hne : p.1.tok ≠ q.1.tok := by
        intro he
        exact hqnotin (he ▸ List.mem_map_of_mem (fun p => p.1.tok) hp)
      rw [ht2]
      show lookupSlot (updateSlot t.slots q.1.tok _) p.1.tok = some freshSlot
      rw [lookupSlot_update_other _ hne]
      exact hfresh p (List.mem_cons_of_mem q hp)
    have hrec := ih t2 hnodup2 hfresh2
    rw [List.foldl_cons, hstep]
    obtain ⟨e1, e2, e3, e4, e5, e6, e7, e8, e9, e10, e11, e12⟩ := hrec
    have hkeys2 : t2.slots.map Prod.fst = t.slots.map Prod.fst := by
      rw [ht2]
      exact updateSlot_keys t.slots q.1.tok _
    refine ⟨e1, e2, e3, e4, e5, e6, e7, e8, e9, e10.trans hkeys2, ?_, ?_⟩
    · intro p hp
      rcases List.mem_cons.mp hp with rfl | hp2
      · rw [e12 p.1.tok hqnotin, ht2]
        show lookupSlot (updateSlot t.slots p.1.tok _) p.1.tok = _
        exact lookupSlot_update_self _ hqfresh
      · exact e11 p hp2
    · intro k hk
      simp only [List.map_cons, List.mem_cons] at hk
      push_neg at hk
      rw [e12 k hk.2, ht2]
      show lookupSlot (updateSlot t.slots q.1.tok _) k = _
      rw [lookupSlot_update_other _ hk.1]

/-! ## Unconditional field preservation -/

theorem sendAndClose_fields (s : Sys) (k : Nat) (r : Response) :
    (sendAndClose s k r).maxBatchSize = s.maxBatchSize ∧
    (sendAndClose s k r).stopped = s.stopped ∧
    (sendAndClose s k r).workerDone = s.workerDone ∧
    (sendAndClose s k r).nextTok = s.nextTok := by
  unfold sendAndClose
  split
  · exact ⟨rfl, rfl, rfl, rfl⟩
  · split
    · exact ⟨rfl, rfl, rfl, rfl⟩
    · exact ⟨rfl, rfl, rfl, rfl⟩

theorem foldl_sendAndClose_fields (ps : List (Request × Response)) :
    ∀ t : Sys,
    (let u := ps.foldl (fun st pr => sendAndClose st pr.1.tok pr.2) t
     u.maxBatchSize = t.maxBatchSize ∧ u.stopped = t.stopped ∧
     u.workerDone = t.workerDone ∧ u.nextTok = t.nextTok) := by
  induction ps with
  | nil => intro t; exact ⟨rfl, rfl, rfl, rfl⟩
  | cons q qs ih =>
    intro t
    rw [List.foldl_cons]
    obtain ⟨e1, e2, e3, e4⟩ := ih (sendAndClose t q.1.tok q.2)
    obtain ⟨f1, f2, f3, f4⟩ := sendAndClose_fields t q.1.tok q.2
    exact ⟨e1.trans f1, e2.trans f2, e3.trans f3, e4.trans f4⟩

theorem dispatchBatch_fields (pf : List Request → List Response) (s : Sys)
    (acc : List Request) :
    (dispatchBatch pf s acc).maxBatchSize = s.maxBatchSize ∧
    (dispatchBatch pf s acc).stopped = s.stopped ∧
    (dispatchBatch pf s acc).workerDone = s.workerDone ∧
    (dispatchBatch pf s acc).nextTok = s.nextTok := by
  unfold dispatchBatch
  split
  · obtain ⟨e1, e2, e3, e4⟩ := foldl_sendAndClose_fields (deliveries acc (pf acc)) s
    exact ⟨e1, e2, e3, e4⟩
  · exact ⟨rfl, rfl, rfl, rfl⟩

theorem closeIfFull_fields (pf : List Request → List Response) (s : Sys)
    (acc : List Request) :
    (closeIfFull pf s acc).maxBatchSize = s.maxBatchSize ∧
    (closeIfFull pf s acc).stopped = s.stopped ∧
    (closeIfFull pf s acc).workerDone = s.workerDone ∧
    (closeIfFull pf s acc).nextTok = s.nextTok := by
  unfold closeIfFull
  split
  · exact dispatchBatch_fields pf s acc
  · exact ⟨rfl, rfl, rfl, rfl⟩

theorem stepA_max (pf : List Request → List Response) (s : Sys) (a : Act) :
    (stepA pf s a).maxBatchSize = s.maxBatchSize := by
  cases a with
  | submit id payload =>
    simp only [stepA]
    split
    · rfl
    · rfl
  | stop => rfl
  | workerArr =>
    simp only [stepA]
    split
    · rfl
    · split
      · exact (closeIfFull_fields pf _ _).1
      · split
        · exact (closeIfFull_fields pf _ _).1
        · rfl
      · rfl
  | workerTimer =>
    simp only [stepA]
    split
    · rfl
    · split
      · exact (dispatchBatch_fields pf s _).1
      · rfl
  | workerStop =>
    simp only [stepA]
    split
    · rfl
    · split
      · split
        · rfl
        · exact (dispatchBatch_fields pf s _).1
      · rfl

theorem run_max (pf : List Request → List Response) (maxBatchSize : Nat) (acts : List Act) :
    (run pf maxBatchSize acts).maxBatchSize = maxBatchSize := by
  suffices h : ∀ s : Sys, (acts.foldl (stepA pf) s).maxBatchSize = s.maxBatchSize by
    exact h (initSys maxBatchSize)
  induction acts with
  | nil => intro s; rfl
  | cons a rest ih =>
    intro s
    rw [List.foldl_cons]
    exact (ih (stepA pf s a)).trans (stepA_max pf s a)

/-! ## The system invariant

The invariant ties the worker state, the queue, the dispatch history and
the reply slots together: every live (pending) request owns a fresh
slot, every dispatched request's slot holds exactly one buffered
Response and is closed, channel identities are pairwise distinct, no
channel operation ever blocked, a batch under construction is non-empty
and strictly below the size bound, every dispatched batch is within the
size bounds, and the metrics agree with the dispatch history. -/

/-- The batch under construction, if any. -/
def accOf : Phase → List Request
  | Phase.idle => []
  | Phase.filling acc => acc

/-- Requests admitted but not yet dispatched: the batch under
construction followed by the queue contents. -/
def pendingReqs (s : Sys) : List Request :=
  accOf s.phase ++ s.queue

structure Inv (s : Sys) : Prop where
  keys_eq : s.slots.map Prod.fst = List.range s.nextTok
  toks_nodup : ((pendingReqs s ++ s.dispatched.flatten).map Request.tok).Nodup
  pending_fresh : ∀ q ∈ pendingReqs s, lookupSlot s.slots q.tok = some freshSlot
  dispatched_written : ∀ q ∈ s.dispatched.flatten,
    ∃ r, lookupSlot s.slots q.tok = some { buf := [r], closed := true }
  not_stuck : s.stuck = false
  filling_ok : ∀ acc, s.phase = Phase.filling acc → acc ≠ [] ∧ acc.length < s.maxBatchSize
  dispatched_size : ∀ b ∈ s.dispatched, 1 ≤ b.length ∧ b.length ≤ Nat.max s.maxBatchSize 1
  m_req : s.metrics.totalRequests = ((s.dispatched.map List.length).sum : Int)
  m_bat : s.metrics.totalBatches = (s.dispatched.length : Int)
  m_avg : s.metrics.avgBatchSize =
    (s.metrics.totalRequests : ℚ) / (s.metrics.totalBatches : ℚ)

theorem lookup_lt_of_keys {s : Sys} (hkeys : s.slots.map Prod.fst = List.range s.nextTok)
    {k : Nat} {v : Slot} (h : lookupSlot s.slots k = some v) : k < s.nextTok := by
  have hm := lookupSlot_mem_keys h
  rw [hkeys] at hm
  exact List.mem_range.mp hm

theorem inv_init (maxBatchSize : Nat) : Inv (initSys maxBatchSize) := by
  refine ⟨rfl, ?_, ?_, ?_, rfl, ?_, ?_, rfl, rfl, ?_⟩
  · simp [pendingReqs, accOf, initSys]
  · intro q hq
    simp [pendingReqs, accOf, initSys] at hq
  · intro q hq
    simp [initSys] at hq
  · intro acc hacc
    simp [initSys] at hacc
  · intro b hb
    simp [initSys] at hb
  · show (0 : ℚ) = (((0 : Int) : ℚ)) / (((0 : Int) : ℚ))
    norm_num

theorem dispatchBatch_inv (pf : List Request → List Response) (t : Sys) (acc : List Request)
    (hkeys : t.slots.map Prod.fst = List.range t.nextTok)
    (hnodup : (((acc ++ t.queue) ++ t.dispatched.flatten).map Request.tok).Nodup)
    (haccfresh : ∀ q ∈ acc, lookupSlot t.slots q.tok = some freshSlot)
    (hqfresh : ∀ q ∈ t.queue, lookupSlot t.slots q.tok = some freshSlot)
    (hdisp : ∀ q ∈ t.dispatched.flatten,
      ∃ r, lookupSlot t.slots q.tok = some { buf := [r], closed := true })
    (hstuck : t.stuck = false)
    (hsizes : ∀ b ∈ t.dispatched, 1 ≤ b.length ∧ b.length ≤ Nat.max t.maxBatchSize 1)
    (hmr : t.metrics.totalRequests = ((t.dispatched.map List.length).sum : Int))
    (hmb : t.metrics.totalBatches = (t.dispatched.length : Int))
    (hne : acc ≠ [])
    (hlen : acc.length ≤ Nat.max t.maxBatchSize 1) :
    Inv (dispatchBatch pf t acc) ∧
    (dispatchBatch pf t acc).queue = t.queue ∧
    (dispatchBatch pf t acc).dispatched = t.dispatched ++ [acc] ∧
    (dispatchBatch pf t acc).phase = Phase.idle := by
  have hpos : 0 < acc.length := List.length_pos.mpr hne
  have hnodup0 := hnodup
  have hmapsplit : (((acc ++ t.queue) ++ t.dispatched.flatten).map Request.tok)
      = (acc.map Request.tok ++ t.queue.map Request.tok)
        ++ t.dispatched.flatten.map Request.tok := by
    simp [List.map_append]
  rw [hmapsplit] at hnodup
  obtain ⟨hAQ, hJ, hdisjAQJ⟩ := List.nodup_append.mp hnodup
  obtain ⟨hA, hQ, hdisjAQ⟩ := List.nodup_append.mp hAQ
  have hQnotA : ∀ q ∈ t.queue, q.tok ∉ acc.map Request.tok := by
    intro q hq hmem
    exact hdisjAQ hmem (List.mem_map_of_mem Request.tok hq)
  have hJnotA : ∀ q ∈ t.dispatched.flatten, q.tok ∉ acc.map Request.tok := by
    intro q hq hmem
    exact hdisjAQJ (List.mem_append.mpr (Or.inl hmem)) (List.mem_map_of_mem Request.tok hq)
  have hwnodup : ((deliveries acc (pf acc)).map (fun p => p.1.tok)).Nodup := by
    rw [deliveries_toks]
    exact hA
  have hwfresh : ∀ p ∈ deliveries acc (pf acc), lookupSlot t.slots p.1.tok = some freshSlot := by
    intro p hp
    obtain ⟨q, hq, hpq⟩ := List.mem_map.mp hp
    rw [← hpq]
    exact haccfresh q hq
  obtain ⟨e1, e2, e3, e4, e5, e6, e7, e8, e9, e10, e11, e12⟩ :=
    writeAll_spec (deliveries acc (pf acc)) t hwnodup hwfresh
  set u := (deliveries acc (pf acc)).foldl (fun st pr => sendAndClose st pr.1.tok pr.2) t with hu
  have hres : dispatchBatch pf t acc =
      { u with
          phase := Phase.idle
          dispatched := u.dispatched ++ [acc]
          metrics := updateMetrics u.metrics acc.length } := by
    rw [hu]
    unfold dispatchBatch
    rw [if_pos hpos]
  rw [hres]
  have hperm : List.Perm ((acc ++ t.queue) ++ t.dispatched.flatten)
      (t.queue ++ (t.dispatched.flatten ++ acc)) := by
    rw [List.append_assoc]
    have h2 : List.Perm (acc ++ (t.queue ++ t.dispatched.flatten))
        ((t.queue ++ t.dispatched.flatten) ++ acc) := List.perm_append_comm
    rw [List.append_assoc] at h2
    exact h2
  refine ⟨⟨?_, ?_, ?_, ?_, ?_, ?_, ?_, ?_, ?_, ?_⟩, ?_, ?_, rfl⟩
  · show u.slots.map Prod.fst = List.range u.nextTok
    rw [e10, e7]
    exact hkeys
  · have htarget : ((t.queue ++ (t.dispatched.flatten ++ acc)).map Request.tok).Nodup :=
      (hperm.map Request.tok).nodup_iff.mp hnodup0
    show ((pendingReqs { u with
        phase := Phase.idle
        dispatched := u.dispatched ++ [acc]
        metrics := updateMetrics u.metrics acc.length } ++
        (u.dispatched ++ [acc]).flatten).map Request.tok).Nodup
    simp only [pendingReqs, accOf, List.nil_append, List.flatten_append]
    rw [e2, e6]
    simpa using htarget
  · intro q hq
    have hq2 : q ∈ t.queue := by
      have : q ∈ pendingReqs { u with
          phase := Phase.idle
          dispatched := u.dispatched ++ [acc]
          metrics := updateMetrics u.metrics acc.length } := hq
      rw [pendingReqs] at this
      simp only [accOf, List.nil_append] at this
      rw [e2] at this
      exact this
    have hnot : q.tok ∉ (deliveries acc (pf acc)).map (fun p => p.1.tok) := by
      rw [deliveries_toks]
      exact hQnotA q hq2
    show lookupSlot u.slots q.tok = some freshSlot
    rw [e12 q.tok hnot]
    exact hqfresh q hq2
  · intro q hq
    have hq2 : q ∈ t.dispatched.flatten ++ acc := by
      have : q ∈ (u.dispatched ++ [acc]).flatten := hq
      rw [e6] at this
      simpa [List.flatten_append] using this
    rcases List.mem_append.mp hq2 with hold | hacc2
    · have hnot : q.tok ∉ (deliveries acc (pf acc)).map (fun p => p.1.tok) := by
        rw [deliveries_toks]
        exact hJnotA q hold
      obtain ⟨r, hr⟩ := hdisp q hold
      refine ⟨r, ?_⟩
      show lookupSlot u.slots q.tok = some { buf := [r], closed := true }
      rw [e12 q.tok hnot]
      exact hr
    · have hmem : (q, routed (pf acc) q) ∈ deliveries acc (pf acc) :=
        List.mem_map_of_mem (fun req => (req, routed (pf acc) req)) hacc2
      exact ⟨routed (pf acc) q, e11 (q, routed (pf acc) q) hmem⟩
  · show u.stuck = false
    rw [e9]
    exact hstuck
  · intro acc2 ha2
    exact Phase.noConfusion ha2
  · intro b hb
    have hb2 : b ∈ t.dispatched ++ [acc] := by
      have : b ∈ u.dispatched ++ [acc] := hb
      rw [e6] at this
      exact this
    show 1 ≤ b.length ∧ b.length ≤ Nat.max u.maxBatchSize 1
    rw [e1]
    rcases List.mem_append.mp hb2 with hold | hnew
    · exact hsizes b hold
    · have hb3 : b = acc := List.mem_singleton.mp hnew
      rw [hb3]
      exact ⟨hpos, hlen⟩
  · show u.metrics.totalRequests + (acc.length : Int)
      = (((u.dispatched ++ [acc]).map List.length).sum : Int)
    rw [e8, e6, hmr]
    simp only [List.map_append, List.sum_append, List.map_cons, List.map_nil,
      List.sum_cons, List.sum_nil]
    push_cast
    ring
  · show u.metrics.totalBatches + 1 = (((u.dispatched ++ [acc]).length : Nat) : Int)
    rw [e8, e6, hmb]
    simp only [List.length_append, List.length_cons, List.length_nil]
    push_cast
    ring
  · rfl
  · show u.queue = t.queue
    exact e2
  · show u.dispatched ++ [acc] = t.dispatched ++ [acc]
    rw [e6]

theorem closeIfFull_inv (pf : List Request → List Response) (t : Sys) (acc : List Request)
    (hkeys : t.slots.map Prod.fst = List.range t.nextTok)
    (hnodup : (((acc ++ t.queue) ++ t.dispatched.flatten).map Request.tok).Nodup)
    (haccfresh : ∀ q ∈ acc, lookupSlot t.slots q.tok = some freshSlot)
    (hqfresh : ∀ q ∈ t.queue, lookupSlot t.slots q.tok = some freshSlot)
    (hdisp : ∀ q ∈ t.dispatched.flatten,
      ∃ r, lookupSlot t.slots q.tok = some { buf := [r], closed := true })
    (hstuck : t.stuck = false)
    (hsizes : ∀ b ∈ t.dispatched, 1 ≤ b.length ∧ b.length ≤ Nat.max t.maxBatchSize 1)
    (hmr : t.metrics.totalRequests = ((t.dispatched.map List.length).sum : Int))
    (hmb : t.metrics.totalBatches = (t.dispatched.length : Int))
    (hmavg : t.metrics.avgBatchSize =
      (t.metrics.totalRequests : ℚ) / (t.metrics.totalBatches : ℚ))
    (hne : acc ≠ [])
    (hlen : acc.length ≤ Nat.max t.maxBatchSize 1) :
    Inv (closeIfFull pf t acc) := by
  unfold closeIfFull
  by_cases hfull : t.maxBatchSize ≤ acc.length
  · rw [if_pos hfull]
    exact (dispatchBatch_inv pf t acc hkeys hnodup haccfresh hqfresh hdisp hstuck hsizes
      hmr hmb hne hlen).1
  · rw [if_neg hfull]
    refine ⟨hkeys, ?_, ?_, hdisp, hstuck, ?_, hsizes, hmr, hmb, hmavg⟩
    · show (((acc ++ t.queue) ++ t.dispatched.flatten).map Request.tok).Nodup
      exact hnodup
    · intro q hq
      have hq2 : q ∈ acc ++ t.queue := hq
      rcases List.mem_append.mp hq2 with h1 | h2
      · exact haccfresh q h1
      · exact hqfresh q h2
    · intro acc2 ha2
      have : acc = acc2 := by
        have := ha2
        injection this
      rw [← this]
      exact ⟨hne, Nat.lt_of_not_le hfull⟩

theorem inv_step (pf : List Request → List Response) (s : Sys) (a : Act) (h : Inv s) :
    Inv (stepA pf s a) := by
  cases a with
  | submit id payload =>
    simp only [stepA]
    by_cases hq : s.queue.length < s.maxBatchSize * 10
    · rw [if_pos hq]
      have hlt : ∀ q ∈ pendingReqs s ++ s.dispatched.flatten, q.tok < s.nextTok := by
        intro q hq2
        rcases List.mem_append.mp hq2 with h1 | h2
        · exact lookup_lt_of_keys h.keys_eq (h.pending_fresh q h1)
        · obtain ⟨r, hr⟩ := h.dispatched_written q h2
          exact lookup_lt_of_keys h.keys_eq hr
      set nw : Request := { id := id, payload := payload, tok := s.nextTok } with hnw
      refine ⟨?_, ?_, ?_, ?_, h.not_stuck, h.filling_ok, h.dispatched_size,
        h.m_req, h.m_bat, h.m_avg⟩
      · show (s.slots ++ [(s.nextTok, freshSlot)]).map Prod.fst = List.range (s.nextTok + 1)
        rw [List.map_append, h.keys_eq, List.range_succ s.nextTok]
        rfl
      · show (((accOf s.phase ++ (s.queue ++ [nw])) ++ s.dispatched.flatten).map
          Request.tok).Nodup
        have heq : (accOf s.phase ++ (s.queue ++ [nw])) ++ s.dispatched.flatten
            = (pendingReqs s ++ [nw]) ++ s.dispatched.flatten := by
          rw [pendingReqs]
          simp [List.append_assoc]
        rw [heq]
        have hperm : List.Perm ((pendingReqs s ++ [nw]) ++ s.dispatched.flatten)
            ((pendingReqs s ++ s.dispatched.flatten) ++ [nw]) := by
          rw [List.append_assoc, List.append_assoc]
          exact List.Perm.append_left (pendingReqs s) List.perm_append_comm
        refine ((hperm.map Request.tok).nodup_iff).mpr ?_
        rw [List.map_append]
        rw [List.nodup_append]
        refine ⟨h.toks_nodup, List.nodup_singleton nw.tok, ?_⟩
        intro x hx hx2
        obtain ⟨q, hq3, hq4⟩ := List.mem_map.mp hx
        have : x = nw.tok := List.mem_singleton.mp hx2
        rw [this] at hq4
        have : q.tok < s.nextTok := hlt q hq3
        rw [hq4] at this
        exact absurd this (Nat.lt_irrefl s.nextTok)
      · intro q hq2
        have hq3 : q ∈ pendingReqs s ++ [nw] := by
          have : q ∈ accOf s.phase ++ (s.queue ++ [nw]) := hq2
          rw [← List.append_assoc] at this
          exact this
        rcases List.mem_append.mp hq3 with h1 | h2
        · exact lookupSlot_append_of_some (h.pending_fresh q h1)
        · have : q = nw := List.mem_singleton.mp h2
          rw [this]
          have hnotin : nw.tok ∉ s.slots.map Prod.fst := by
            rw [h.keys_eq]
            exact List.not_mem_range_self
          rw [lookupSlot_append_of_notmem hnotin]
          show (if s.nextTok = s.nextTok then some freshSlot else lookupSlot [] s.nextTok)
            = some freshSlot
          rw [if_pos rfl]
      · intro q hq2
        obtain ⟨r, hr⟩ := h.dispatched_written q hq2
        exact ⟨r, lookupSlot_append_of_some hr⟩
    · rw [if_neg hq]
      exact h
  | stop =>
    exact ⟨h.keys_eq, h.toks_nodup, h.pending_fresh, h.dispatched_written, h.not_stuck,
      h.filling_ok, h.dispatched_size, h.m_req, h.m_bat, h.m_avg⟩
  | workerArr =>
    simp only [stepA]
    by_cases hwd : s.workerDone = true
    · rw [if_pos hwd]
      exact h
    · rw [if_neg hwd]
      cases hp : s.phase with
      | idle =>
        cases hqe : s.queue with
        | nil => exact h
        | cons r rest =>
          have hpend : pendingReqs s = r :: rest := by
            rw [pendingReqs, hp, hqe]
            simp [accOf]
          show Inv (closeIfFull pf { s with queue := rest, phase := Phase.idle } [r])
          apply closeIfFull_inv pf { s with queue := rest, phase := Phase.idle } [r]
          · exact h.keys_eq
          · show ((([r] ++ rest) ++ s.dispatched.flatten).map Request.tok).Nodup
            rw [List.singleton_append, ← hpend]
            exact h.toks_nodup
          · intro q hq2
            have : q = r := List.mem_singleton.mp hq2
            rw [this]
            apply h.pending_fresh
            rw [hpend]
            exact List.mem_cons_self r rest
          · intro q hq2
            apply h.pending_fresh
            rw [hpend]
            exact List.mem_cons_of_mem r hq2
          · exact h.dispatched_written
          · exact h.not_stuck
          · exact h.dispatched_size
          · exact h.m_req
          · exact h.m_bat
          · exact h.m_avg
          · exact List.cons_ne_nil r []
          · show ([r] : List Request).length ≤ Nat.max s.maxBatchSize 1
            simp
      | filling acc =>
        cases hqe : s.queue with
        | nil => exact h
        | cons r rest =>
          obtain ⟨hne0, hlt0⟩ := h.filling_ok acc hp
          have hpend : pendingReqs s = acc ++ (r :: rest) := by
            rw [pendingReqs, hp, hqe]
            simp [accOf]
          show Inv (if acc.length < s.maxBatchSize then
              closeIfFull pf { s with queue := rest, phase := Phase.filling acc } (acc ++ [r])
            else s)
          rw [if_pos hlt0]
          apply closeIfFull_inv pf { s with queue := rest, phase := Phase.filling acc }
            (acc ++ [r])
          · exact h.keys_eq
          · show ((((acc ++ [r]) ++ rest) ++ s.dispatched.flatten).map Request.tok).Nodup
            rw [List.append_assoc acc [r] rest, List.singleton_append, ← hpend]
            exact h.toks_nodup
          · intro q hq2
            apply h.pending_fresh
            rw [hpend]
            rcases List.mem_append.mp hq2 with h1 | h2
            · exact List.mem_append.mpr (Or.inl h1)
            · have : q = r := List.mem_singleton.mp h2
              rw [this]
              exact List.mem_append.mpr (Or.inr (List.mem_cons_self r rest))
          · intro q hq2
            apply h.pending_fresh
            rw [hpend]
            exact List.mem_append.mpr (Or.inr (List.mem_cons_of_mem r hq2))
          · exact h.dispatched_written
          · exact h.not_stuck
          · exact h.dispatched_size
          · exact h.m_req
          · exact h.m_bat
          · exact h.m_avg
          · exact List.append_ne_nil_of_right_ne_nil acc (List.cons_ne_nil r [])
          · show (acc ++ [r]).length ≤ Nat.max s.maxBatchSize 1
            rw [List.length_append, List.length_singleton]
            exact le_trans (Nat.succ_le_of_lt hlt0) (Nat.le_max_left s.maxBatchSize 1)
  | workerTimer =>
    simp only [stepA]
    by_cases hwd : s.workerDone = true
    · rw [if_pos hwd]
      exact h
    · rw [if_neg hwd]
      cases hp : s.phase with
      | idle => exact h
      | filling acc =>
        obtain ⟨hne0, hlt0⟩ := h.filling_ok acc hp
        have hpend : pendingReqs s = acc ++ s.queue := by
          rw [pendingReqs, hp]
          simp [accOf]
        refine (dispatchBatch_inv pf s acc h.keys_eq ?_ ?_ ?_ h.dispatched_written
          h.not_stuck h.dispatched_size h.m_req h.m_bat hne0
          (le_trans (Nat.le_of_lt hlt0) (Nat.le_max_left s.maxBatchSize 1))).1
        · rw [← hpend]
          exact h.toks_nodup
        · intro q hq2
          apply h.pending_fresh
          rw [hpend]
          exact List.mem_append.mpr (Or.inl hq2)
        · intro q hq2
          apply h.pending_fresh
          rw [hpend]
          exact List.mem_append.mpr (Or.inr hq2)
  | workerStop =>
    simp only [stepA]
    by_cases hwd : s.workerDone = true
    · rw [if_pos hwd]
      exact h
    · rw [if_neg hwd]
      by_cases hst : s.stopped = true
      · rw [if_pos hst]
        cases hp : s.phase with
        | idle =>
          show Inv { s with workerDone := true, phase := Phase.idle }
          have hpend2 : pendingReqs { s with workerDone := true, phase := Phase.idle }
              = pendingReqs s := by
            rw [pendingReqs, pendingReqs, hp]
          refine ⟨h.keys_eq, ?_, ?_, h.dispatched_written, h.not_stuck, ?_,
            h.dispatched_size, h.m_req, h.m_bat, h.m_avg⟩
          · show ((pendingReqs { s with workerDone := true, phase := Phase.idle }
              ++ s.dispatched.flatten).map Request.tok).Nodup
            rw [hpend2]
            exact h.toks_nodup
          · intro q hq2
            rw [hpend2] at hq2
            exact h.pending_fresh q hq2
          · intro acc2 ha2
            exact Phase.noConfusion ha2
        | filling acc =>
          obtain ⟨hne0, hlt0⟩ := h.filling_ok acc hp
          have hpend : pendingReqs s = acc ++ s.queue := by
            rw [pendingReqs, hp]
            simp [accOf]
          refine (dispatchBatch_inv pf s acc h.keys_eq ?_ ?_ ?_ h.dispatched_written
            h.not_stuck h.dispatched_size h.m_req h.m_bat hne0
            (le_trans (Nat.le_of_lt hlt0) (Nat.le_max_left s.maxBatchSize 1))).1
          · rw [← hpend]
            exact h.toks_nodup
          · intro q hq2
            apply h.pending_fresh
            rw [hpend]
            exact List.mem_append.mpr (Or.inl hq2)
          · intro q hq2
            apply h.pending_fresh
            rw [hpend]
            exact List.mem_append.mpr (Or.inr hq2)
      · rw [if_neg hst]
        exact h

theorem inv_run (pf : List Request → List Response) (maxBatchSize : Nat) (acts : List Act) :
    Inv (run pf maxBatchSize acts) := by
  suffices hstep : ∀ s : Sys, Inv s → Inv (acts.foldl (stepA pf) s) by
    exact hstep (initSys maxBatchSize) (inv_init maxBatchSize)
  induction acts with
  | nil => intro s hs; exact hs
  | cons a rest ih =>
    intro s hs
    rw [List.foldl_cons]
    exact ih (stepA pf s a) (inv_step pf s a hs)

/-! ## Unconditional dispatch output facts -/

theorem sendAndClose_core (s : Sys) (k : Nat) (r : Response) :
    (sendAndClose s k r).queue = s.queue ∧ (sendAndClose s k r).phase = s.phase ∧
    (sendAndClose s k r).dispatched = s.dispatched ∧
    (sendAndClose s k r).metrics = s.metrics := by
  unfold sendAndClose
  split
  · exact ⟨rfl, rfl, rfl, rfl⟩
  · split
    · exact ⟨rfl, rfl, rfl, rfl⟩
    · exact ⟨rfl, rfl, rfl, rfl⟩

theorem foldl_sendAndClose_core (ps : List (Request × Response)) :
    ∀ t : Sys,
    (let u := ps.foldl (fun st pr => sendAndClose st pr.1.tok pr.2) t
     u.queue = t.queue ∧ u.dispatched = t.dispatched) := by
  induction ps with
  | nil => intro t; exact ⟨rfl, rfl⟩
  | cons q qs ih =>
    intro t
    rw [List.foldl_cons]
    obtain ⟨e1, e2⟩ := ih (sendAndClose t q.1.tok q.2)
    obtain ⟨f1, _, f3, _⟩ := sendAndClose_core t q.1.tok q.2
    exact ⟨e1.trans f1, e2.trans f3⟩

theorem dispatchBatch_out (pf : List Request → List Response) (s : Sys) (acc : List Request)
    (h : acc ≠ []) :
    (dispatchBatch pf s acc).dispatched = s.dispatched ++ [acc] ∧
    (dispatchBatch pf s acc).queue = s.queue ∧
    (dispatchBatch pf s acc).phase = Phase.idle := by
  have hpos : 0 < acc.length := List.length_pos.mpr h
  unfold dispatchBatch
  rw [if_pos hpos]
  obtain ⟨e1, e2⟩ := foldl_sendAndClose_core (deliveries acc (pf acc)) s
  refine ⟨?_, ?_, rfl⟩
  · show ((deliveries acc (pf acc)).foldl
      (fun st pr => sendAndClose st pr.1.tok pr.2) s).dispatched ++ [acc]
      = s.dispatched ++ [acc]
    rw [e2]
  · show ((deliveries acc (pf acc)).foldl
      (fun st pr => sendAndClose st pr.1.tok pr.2) s).queue = s.queue
    exact e1

/-! ## Claim theorems -/

/-- C3: under any schedule, every batch handed to the process function
has size at least one and at most `maxBatchSize` (for a positive size
bound): `collectBatch` never dispatches an empty batch, and the
collection loop stops appending once the size reaches `maxBatchSize` —
a batch still under construction is always strictly below the bound. -/
theorem C3_batch_size_bounds (pf : List Request → List Response) (maxBatchSize : Nat)
    (acts : List Act) (hmax : 1 ≤ maxBatchSize) :
    (∀ b ∈ (run pf maxBatchSize acts).dispatched,
      1 ≤ b.length ∧ b.length ≤ maxBatchSize) ∧
    (∀ acc, (run pf maxBatchSize acts).phase = Phase.filling acc →
      acc.length < maxBatchSize) := by
  have hinv := inv_run pf maxBatchSize acts
  have hm := run_max pf maxBatchSize acts
  constructor
  · intro b hb
    obtain ⟨h1, h2⟩ := hinv.dispatched_size b hb
    rw [hm] at h2
    exact ⟨h1, le_trans h2 (le_of_eq (Nat.max_eq_left hmax))⟩
  · intro acc hacc
    have h2 := (hinv.filling_ok acc hacc).2
    rw [hm] at h2
    exact h2

theorem C3_batch_size_bounds_witness :
    1 ≤ ([{ id := "a", payload := [], tok := 0 }] : List Request).length ∧
    ([{ id := "a", payload := [], tok := 0 }] : List Request).length ≤ 2 :=
  (C3_batch_size_bounds echoPf 2 [Act.submit "a" [], Act.workerArr, Act.workerTimer]
    (by decide)).1 [{ id := "a", payload := [], tok := 0 }] (by decide)

/-- C7: `updateMetrics` adds exactly the batch size to `totalRequests`,
exactly one to `totalBatches`, and recomputes the average as their
quotient; consequently after any schedule `totalRequests` equals the
sum of the sizes of the dispatched batches, `totalBatches` equals their
count, the average is `totalRequests / totalBatches`, and the
`Metrics()` snapshot returns exactly these three values. -/
theorem C7_metrics_consistency (pf : List Request → List Response) (maxBatchSize : Nat)
    (acts : List Act) :
    (∀ (m : Metrics) (n : Nat), updateMetrics m n =
      { totalRequests := m.totalRequests + n
        totalBatches := m.totalBatches + 1
        avgBatchSize := ((m.totalRequests + n : Int) : ℚ)
          / ((m.totalBatches + 1 : Int) : ℚ) }) ∧
    (run pf maxBatchSize acts).metrics.totalRequests
      = (((run pf maxBatchSize acts).dispatched.map List.length).sum : Int) ∧
    (run pf maxBatchSize acts).metrics.totalBatches
      = ((run pf maxBatchSize acts).dispatched.length : Int) ∧
    (run pf maxBatchSize acts).metrics.avgBatchSize
      = ((run pf maxBatchSize acts).metrics.totalRequests : ℚ)
        / ((run pf maxBatchSize acts).metrics.totalBatches : ℚ) ∧
    metricsSnapshot (run pf maxBatchSize acts)
      = ((run pf maxBatchSize acts).metrics.totalRequests,
         (run pf maxBatchSize acts).metrics.totalBatches,
         (run pf maxBatchSize acts).metrics.avgBatchSize) := by
  have hinv := inv_run pf maxBatchSize acts
  exact ⟨fun m n => rfl, hinv.m_req, hinv.m_bat, hinv.m_avg, rfl⟩

/-- C2: no reply-channel operation ever blocks or panics under any
schedule (`stuck` never set: the capacity-1 buffer always accepts the
single send even with the caller gone), sending then closing a fresh
slot yields exactly one buffered Response with the slot closed, and
after any schedule every Request of every dispatched batch has its slot
in exactly that state: one Response delivered, then closed. -/
theorem C2_reply_slot_once (pf : List Request → List Response) (maxBatchSize : Nat)
    (acts : List Act) :
    (run pf maxBatchSize acts).stuck = false ∧
    (∀ r : Response, runOps freshSlot [SlotOp.send r, SlotOp.close]
      = some { buf := [r], closed := true }) ∧
    (∀ b ∈ (run pf maxBatchSize acts).dispatched, ∀ q ∈ b,
      ∃ r, lookupSlot (run pf maxBatchSize acts).slots q.tok
        = some { buf := [r], closed := true }) := by
  have hinv := inv_run pf maxBatchSize acts
  refine ⟨hinv.not_stuck, fun r => rfl, ?_⟩
  intro b hb q hq
  exact hinv.dispatched_written q (List.mem_flatten.mpr ⟨b, hb, hq⟩)

theorem C2_reply_slot_once_witness :
    ∃ r, lookupSlot (run echoPf 1 [Act.submit "a" [7], Act.workerArr]).slots
      ({ id := "a", payload := [7], tok := 0 } : Request).tok
      = some { buf := [r], closed := true } :=
  (C2_reply_slot_once echoPf 1 [Act.submit "a" [7], Act.workerArr]).2.2
    [{ id := "a", payload := [7], tok := 0 }] (by decide)
    { id := "a", payload := [7], tok := 0 } (by decide)

/-- C1 counterexample: with one Request enqueued and `Stop` called, the
worker's idle wait may resolve to the stop branch: the worker exits with
the Request still queued, dispatched in no batch, and its reply slot
untouched — neither drained into a final batch nor failed with any
error.  Moreover a `Submit` arriving after `Stop` still enqueues: the
admission path never checks the stop signal. -/
theorem C1_counterexample :
    (run echoPf 4 [Act.submit "a" [1], Act.stop, Act.workerStop]).workerDone = true ∧
    (run echoPf 4 [Act.submit "a" [1], Act.stop, Act.workerStop]).stopped = true ∧
    (run echoPf 4 [Act.submit "a" [1], Act.stop, Act.workerStop]).queue
      = [{ id := "a", payload := [1], tok := 0 }] ∧
    (run echoPf 4 [Act.submit "a" [1], Act.stop, Act.workerStop]).dispatched = [] ∧
    lookupSlot (run echoPf 4 [Act.submit "a" [1], Act.stop, Act.workerStop]).slots 0
      = some freshSlot ∧
    (run echoPf 4 [Act.stop, Act.submit "a" [1]]).stopped = true ∧
    (run echoPf 4 [Act.stop, Act.submit "a" [1]]).queue
      = [{ id := "a", payload := [1], tok := 0 }] := by
  refine ⟨rfl, rfl, by decide, by decide, by decide, rfl, by decide⟩

/-- C1 amended: `Submit` is not gated on the stop signal and still
enqueues after `Stop` whenever the buffer has room; when the worker
observes stop while a batch is under construction, that partial batch is
dispatched; but when the worker observes stop in its idle wait it exits
at once, leaving the queue, the reply slots and the dispatch history
untouched — Requests still queued are abandoned with no reply, and no
shutdown error exists to fail them with. -/
theorem C1_stop_semantics (pf : List Request → List Response) (s : Sys) :
    (∀ id payload, s.stopped = true → s.queue.length < s.maxBatchSize * 10 →
      (stepA pf s (Act.submit id payload)).queue
        = s.queue ++ [{ id := id, payload := payload, tok := s.nextTok }]) ∧
    (∀ acc, s.workerDone = false → s.stopped = true → s.phase = Phase.filling acc →
      acc ≠ [] → (stepA pf s Act.workerStop).dispatched = s.dispatched ++ [acc]) ∧
    (s.workerDone = false → s.stopped = true → s.phase = Phase.idle →
      (stepA pf s Act.workerStop).workerDone = true ∧
      (stepA pf s Act.workerStop).queue = s.queue ∧
      (stepA pf s Act.workerStop).slots = s.slots ∧
      (stepA pf s Act.workerStop).dispatched = s.dispatched) := by
  refine ⟨?_, ?_, ?_⟩
  · intro id payload _ hq
    simp only [stepA]
    rw [if_pos hq]
  · intro acc hwd hst hp hne
    simp only [stepA, hwd, hst, hp]
    simp only [Bool.false_eq_true, if_false, if_pos rfl]
    exact (dispatchBatch_out pf s acc hne).1
  · intro hwd hst hp
    simp only [stepA, hwd, hst, hp]
    simp only [Bool.false_eq_true, if_false, if_pos rfl]
    exact ⟨rfl, rfl, rfl, rfl⟩

theorem C1_stop_semantics_witness :
    (stepA echoPf (run echoPf 4 [Act.submit "a" [1], Act.stop]) Act.workerStop).workerDone
      = true ∧
    (stepA echoPf (run echoPf 4 [Act.submit "a" [1], Act.stop]) Act.workerStop).queue
      = (run echoPf 4 [Act.submit "a" [1], Act.stop]).queue ∧
    (stepA echoPf (run echoPf 4 [Act.submit "a" [1], Act.stop]) Act.workerStop).slots
      = (run echoPf 4 [Act.submit "a" [1], Act.stop]).slots ∧
    (stepA echoPf (run echoPf 4 [Act.submit "a" [1], Act.stop]) Act.workerStop).dispatched
      = (run echoPf 4 [Act.submit "a" [1], Act.stop]).dispatched :=
  (C1_stop_semantics echoPf (run echoPf 4 [Act.submit "a" [1], Act.stop])).2.2
    (by decide) (by decide) (by decide)

/-- C9 counterexample: with `maxBatchSize = 2`, a batch holding one
Request and a second Request already queued — the arrival that would
fill the batch is ready — the worker's wait may still resolve to the
timer branch: the batch closes with only the first Request and the
queued arrival is split off into the following batch. -/
theorem C9_counterexample :
    (run echoPf 2 [Act.submit "a" [], Act.submit "b" [], Act.workerArr]).phase
      = Phase.filling [{ id := "a", payload := [], tok := 0 }] ∧
    (run echoPf 2 [Act.submit "a" [], Act.submit "b" [], Act.workerArr]).queue
      = [{ id := "b", payload := [], tok := 1 }] ∧
    (stepA echoPf (run echoPf 2 [Act.submit "a" [], Act.submit "b" [], Act.workerArr])
        Act.workerTimer).dispatched
      = [[{ id := "a", payload := [], tok := 0 }]] ∧
    (run echoPf 2 [Act.submit "a" [], Act.submit "b" [], Act.workerArr, Act.workerTimer,
        Act.workerArr, Act.workerTimer]).dispatched
      = [[{ id := "a", payload := [], tok := 0 }],
         [{ id := "b", payload := [], tok := 1 }]] := by
  refine ⟨by decide, by decide, by decide, by decide⟩

/-- C9 amended: once the worker's wait selects the arrival that fills
the batch to `maxBatchSize`, the loop guard closes the batch at once:
the arrival is included in the dispatched batch and no pending timer can
split it off afterwards.  (When arrival and timer are simultaneously
ready, however, the wait may resolve to either branch, so the code does
not guarantee the arrival joins the current batch.) -/
theorem C9_size_trigger_after_append (pf : List Request → List Response) (s : Sys)
    (acc : List Request) (r : Request) (rest : List Request)
    (hwd : s.workerDone = false) (hp : s.phase = Phase.filling acc)
    (hq : s.queue = r :: rest) (hfill : acc.length + 1 = s.maxBatchSize) :
    (stepA pf s Act.workerArr).dispatched = s.dispatched ++ [acc ++ [r]] ∧
    (stepA pf s Act.workerArr).phase = Phase.idle := by
  have hlt : acc.length < s.maxBatchSize := by
    rw [← hfill]
    exact Nat.lt_succ_self acc.length
  have hfull : s.maxBatchSize ≤ (acc ++ [r]).length := by
    rw [List.length_append, List.length_singleton, hfill]
  have hne : acc ++ [r] ≠ [] := List.append_ne_nil_of_right_ne_nil acc (List.cons_ne_nil r [])
  simp only [stepA, hwd, hp, hq]
  simp only [Bool.false_eq_true, if_false]
  rw [if_pos hlt]
  unfold closeIfFull
  rw [if_pos hfull]
  obtain ⟨e1, _, e3⟩ :=
    dispatchBatch_out pf
      { s with queue := rest, phase := Phase.filling acc, workerDone := false }
      (acc ++ [r]) hne
  exact ⟨e1, e3⟩

theorem foldl_mapAssign_congr {rs : List Response} {k : String}
    (m1 m2 : String → Option Response) (h : m1 k = m2 k) :
    rs.foldl mapAssign m1 k = rs.foldl mapAssign m2 k := by
  induction rs generalizing m1 m2 with
  | nil => exact h
  | cons x rest ih =>
    rw [List.foldl_cons, List.foldl_cons]
    apply ih
    simp only [mapAssign]
    by_cases hk : k = x.ID
    · rw [if_pos hk, if_pos hk]
    · rw [if_neg hk, if_neg hk]
      exact h

/-- C5: a Request whose id appears in the response list receives a
Response drawn from that list and bearing its id; a Request whose id
matches no tuple receives the synthesized `ErrResponseNotFound`
Response with an empty payload; and a response tuple whose id matches
no Request in the batch can be removed without changing a single
delivery — it is discarded with no effect on any reply slot. -/
theorem C5_response_routing (batch : List Request) (rs rs1 rs2 : List Response)
    (req : Request) (extra : Response) :
    ((∃ r ∈ rs, r.ID = req.id) → routed rs req ∈ rs ∧ (routed rs req).ID = req.id) ∧
    ((∀ r ∈ rs, r.ID ≠ req.id) →
      routed rs req = { ID := req.id, Data := [], Error := some Err.responseNotFound }) ∧
    ((∀ q ∈ batch, q.id ≠ extra.ID) →
      deliveries batch (rs1 ++ extra :: rs2) = deliveries batch (rs1 ++ rs2)) := by
  refine ⟨?_, ?_, ?_⟩
  · intro hex
    obtain ⟨r2, hr2⟩ := foldl_mapAssign_isSome (fun _ => none) hex
    have hr3 : responseMapFun rs req.id = some r2 := hr2
    have hrouted : routed rs req = r2 := by
      rw [routed, hr3]
    rcases foldl_mapAssign_some (fun _ => none) hr2 with ⟨hmem, hid⟩ | habs
    · rw [hrouted]
      exact ⟨hmem, hid⟩
    · cases habs
  · intro hnone
    have hmap : responseMapFun rs req.id = none :=
      foldl_mapAssign_no_match (fun _ => none) hnone
    rw [routed, hmap]
  · intro hnomatch
    rw [deliveries, deliveries]
    apply List.map_congr_left
    intro q hq
    have hmap : responseMapFun (rs1 ++ extra :: rs2) q.id
        = responseMapFun (rs1 ++ rs2) q.id := by
      show (rs1 ++ extra :: rs2).foldl mapAssign (fun _ => none) q.id
        = (rs1 ++ rs2).foldl mapAssign (fun _ => none) q.id
      rw [List.foldl_append, List.foldl_append, List.foldl_cons]
      apply foldl_mapAssign_congr
      simp only [mapAssign]
      rw [if_neg (hnomatch q hq)]
    rw [routed, routed, hmap]

theorem C5_response_routing_witness :
    routed [{ ID := "a", Data := [1], Error := none }] { id := "a", payload := [], tok := 0 }
      ∈ [({ ID := "a", Data := [1], Error := none } : Response)] ∧
    (routed [{ ID := "a", Data := [1], Error := none }]
      { id := "a", payload := [], tok := 0 }).ID
      = ({ id := "a", payload := [], tok := 0 } : Request).id :=
  (C5_response_routing [] [{ ID := "a", Data := [1], Error := none }] [] []
    { id := "a", payload := [], tok := 0 }
    { ID := "x", Data := [], Error := none }).1 (by decide)

/-- C10: the `responseMap` is built by left-to-right assignment, so of
several tuples sharing an id the last one in the response list is the
map entry and every Request bearing that id receives it; and two
Requests of one batch that share an id receive the very same Response
value — one shared reply rather than one each. -/
theorem C10_duplicate_ids (batch : List Request) (rs rs1 rs2 : List Response)
    (r : Response) (q1 q2 : Request) :
    ((∀ r2 ∈ rs2, r2.ID ≠ r.ID) → responseMapFun (rs1 ++ r :: rs2) r.ID = some r) ∧
    ((∀ r2 ∈ rs2, r2.ID ≠ r.ID) → ∀ q ∈ batch, q.id = r.ID →
      routed (rs1 ++ r :: rs2) q = r) ∧
    (q1.id = q2.id → routed rs q1 = routed rs q2) := by
  refine ⟨?_, ?_, ?_⟩
  · intro h2
    exact responseMapFun_last h2 rfl
  · intro h2 q _ hqid
    have hmap : responseMapFun (rs1 ++ r :: rs2) q.id = some r := by
      rw [hqid]
      exact responseMapFun_last h2 rfl
    rw [routed, hmap]
  · intro h
    rw [routed, routed, h]

theorem C10_duplicate_ids_witness :
    routed [{ ID := "a", Data := [1], Error := none },
            { ID := "a", Data := [2], Error := none }]
        { id := "a", payload := [], tok := 0 }
      = { ID := "a", Data := [2], Error := none } :=
  (C10_duplicate_ids [{ id := "a", payload := [], tok := 0 }] []
    [{ ID := "a", Data := [1], Error := none }] []
    { ID := "a", Data := [2], Error := none }
    { id := "x", payload := [], tok := 0 } { id := "x", payload := [], tok := 0 }).2.1
    (by decide) { id := "a", payload := [], tok := 0 } (by decide) rfl

/-- C4: whenever any dispatch-layer step fails — marshal, request
construction, transport, body read, non-200 status or unmarshal —
`ProcessBatch` returns `errorResponses`: exactly one Response per
Request, positionally carrying that Request's id and the same shared
error, with every payload empty and no success Response at all. -/
theorem C4_total_failure (batch : List Request) (w : HttpWorld) (e : Err)
    (h : dispatchFailure w = some e) :
    ProcessBatch batch w = errorResponses batch e ∧
    (ProcessBatch batch w).length = batch.length ∧
    (∀ i : Nat, (ProcessBatch batch w)[i]?
      = (batch[i]?).map (fun q => { ID := q.id, Data := [], Error := some e })) ∧
    (∀ resp ∈ ProcessBatch batch w, resp.Error = some e ∧ resp.Data = []) := by
  have hmain : ProcessBatch batch w = errorResponses batch e := by
    cases hm : w.marshalErr with
    | some e2 =>
      have h2 := h
      simp only [dispatchFailure, hm] at h2
      injection h2 with h3
      simp only [ProcessBatch, hm, h3]
    | none =>
      cases hn : w.newRequestErr with
      | some e2 =>
        have h2 := h
        simp only [dispatchFailure, hm, hn] at h2
        injection h2 with h3
        simp only [ProcessBatch, hm, hn, h3]
      | none =>
        cases ht : w.transportErr with
        | some e2 =>
          have h2 := h
          simp only [dispatchFailure, hm, hn, ht] at h2
          injection h2 with h3
          simp only [ProcessBatch, hm, hn, ht, h3]
        | none =>
          cases hr : w.readErr with
          | some e2 =>
            have h2 := h
            simp only [dispatchFailure, hm, hn, ht, hr] at h2
            injection h2 with h3
            simp only [ProcessBatch, hm, hn, ht, hr, h3]
          | none =>
            by_cases hs : w.status ≠ 200
            · have h2 := h
              simp only [dispatchFailure, hm, hn, ht, hr, if_pos hs] at h2
              injection h2 with h3
              simp only [ProcessBatch, hm, hn, ht, hr, if_pos hs, h3]
            · cases hu : w.unmarshalResult with
              | error e2 =>
                have h2 := h
                simp only [dispatchFailure, hm, hn, ht, hr, if_neg hs, hu] at h2
                injection h2 with h3
                simp only [ProcessBatch, hm, hn, ht, hr, if_neg hs, hu, h3]
              | ok tuples =>
                have h2 := h
                simp only [dispatchFailure, hm, hn, ht, hr, if_neg hs, hu] at h2
                exact Option.noConfusion h2
  refine ⟨hmain, ?_, ?_, ?_⟩
  · rw [hmain, errorResponses]
    exact List.length_map batch _
  · intro i
    rw [hmain, errorResponses]
    exact List.getElem?_map _ batch i
  · intro resp hresp
    rw [hmain, errorResponses] at hresp
    obtain ⟨q, _, hq2⟩ := List.mem_map.mp hresp
    rw [← hq2]
    exact ⟨rfl, rfl⟩

theorem C4_total_failure_witness :
    ProcessBatch [{ id := "a", payload := [1], tok := 0 }]
        { marshalErr := some (Err.generic "boom"), newRequestErr := none,
          transportErr := none, readErr := none, status := 200, body := "",
          unmarshalResult := Except.ok [] }
      = errorResponses [{ id := "a", payload := [1], tok := 0 }] (Err.generic "boom") :=
  (C4_total_failure [{ id := "a", payload := [1], tok := 0 }]
    { marshalErr := some (Err.generic "boom"), newRequestErr := none,
      transportErr := none, readErr := none, status := 200, body := "",
      unmarshalResult := Except.ok [] }
    (Err.generic "boom") rfl).1

/-- C8 counterexample: a backend tuple that carries both a non-empty
result and a non-empty error string is converted by `ProcessBatch` into
a Response with both `Data` and `Error` populated — the conversion sets
`Data` unconditionally and never clears it when the error is set. -/
theorem C8_counterexample :
    ProcessBatch [{ id := "a", payload := [], tok := 0 }]
        { marshalErr := none, newRequestErr := none, transportErr := none,
          readErr := none, status := 200, body := "",
          unmarshalResult :=
            Except.ok [{ ID := "a", Result := [49], Error := "boom" }] }
      = [{ ID := "a", Data := [49], Error := some (Err.backend "boom") }] ∧
    ([49] : List Nat) ≠ [] ∧
    (some (Err.backend "boom") : Option Err) ≠ none := by
  refine ⟨by decide, by decide, by decide⟩

/-- C8 amended: on the success path `ProcessBatch` returns exactly the
converted tuples, where each Response's `Data` is the tuple's result and
its `Error` is set iff the tuple's error string is non-empty; hence no
Response carries both a non-empty payload and an error provided the
tuple itself does not (as the wire contract prescribes), and every
Response synthesized on a failure path has an empty payload. -/
theorem C8_no_both_populated (batch : List Request) (w : HttpWorld)
    (tuples : List SingleResponse) (e : Err) :
    (dispatchFailure w = none → w.unmarshalResult = Except.ok tuples →
      ProcessBatch batch w = convertResponses tuples) ∧
    ((∀ t ∈ tuples, t.Error = "" ∨ t.Result = []) →
      ∀ resp ∈ convertResponses tuples, resp.Data = [] ∨ resp.Error = none) ∧
    (∀ resp ∈ errorResponses batch e, resp.Data = []) := by
  refine ⟨?_, ?_, ?_⟩
  · intro hfail hu
    cases hm : w.marshalErr with
    | some e2 =>
      simp only [dispatchFailure, hm] at hfail
      exact Option.noConfusion hfail
    | none =>
      cases hn : w.newRequestErr with
      | some e2 =>
        simp only [dispatchFailure, hm, hn] at hfail
        exact Option.noConfusion hfail
      | none =>
        cases ht : w.transportErr with
        | some e2 =>
          simp only [dispatchFailure, hm, hn, ht] at hfail
          exact Option.noConfusion hfail
        | none =>
          cases hr : w.readErr with
          | some e2 =>
            simp only [dispatchFailure, hm, hn, ht, hr] at hfail
            exact Option.noConfusion hfail
          | none =>
            by_cases hs : w.status ≠ 200
            · simp only [dispatchFailure, hm, hn, ht, hr, if_pos hs] at hfail
              exact Option.noConfusion hfail
            · simp only [ProcessBatch, hm, hn, ht, hr, if_neg hs, hu]
  · intro hconf resp hresp
    obtain ⟨t, ht, ht2⟩ := List.mem_map.mp hresp
    rcases hconf t ht with h1 | h1
    · right
      rw [← ht2]
      simp [h1]
    · left
      rw [← ht2]
      exact h1
  · intro resp hresp
    obtain ⟨q, _, hq2⟩ := List.mem_map.mp hresp
    rw [← hq2]

theorem C8_no_both_witness :
    ProcessBatch [{ id := "a", payload := [], tok := 0 }]
        { marshalErr := none, newRequestErr := none, transportErr := none,
          readErr := none, status := 200, body := "",
          unmarshalResult :=
            Except.ok [{ ID := "a", Result := [49], Error := "" }] }
      = convertResponses [{ ID := "a", Result := [49], Error := "" }] :=
  (C8_no_both_populated [{ id := "a", payload := [], tok := 0 }]
    { marshalErr := none, newRequestErr := none, transportErr := none,
      readErr := none, status := 200, body := "",
      unmarshalResult := Except.ok [{ ID := "a", Result := [49], Error := "" }] }
    [{ ID := "a", Result := [49], Error := "" }] Err.responseNotFound).1 rfl rfl

/-- C6: `Submit` returns the context's cancellation error in exactly two
situations — the enqueue select resolving to `ctx.Done()` (nothing
enqueued, the Request never seen by the batcher) or, after a successful
enqueue, the await select resolving to `ctx.Done()` (the Request left
in the pipeline) — and otherwise returns the delivered Response's
`(Data, Error)` pair; and a reply delivered after the caller left is
simply buffered by the capacity-1 slot (the send completes) and never
read. -/
theorem C6_submit_cancellation (enq : SelectOutcome Unit) (await : SelectOutcome Response) :
    ((submitGo enq await).1.2 = some SubmitErr.ctxErr ↔
      (enq = SelectOutcome.ctxDone ∨ await = SelectOutcome.ctxDone)) ∧
    (enq = SelectOutcome.ctxDone →
      submitGo enq await = ((none, some SubmitErr.ctxErr), false)) ∧
    (∀ u, enq = SelectOutcome.recv u → await = SelectOutcome.ctxDone →
      submitGo enq await = ((none, some SubmitErr.ctxErr), true)) ∧
    (∀ u resp, enq = SelectOutcome.recv u → await = SelectOutcome.recv resp →
      submitGo enq await = ((some resp.Data, resp.Error.map SubmitErr.respErr), true)) ∧
    (∀ resp : Response, runOps freshSlot [SlotOp.send resp, SlotOp.close]
      = some { buf := [resp], closed := true }) := by
  refine ⟨?_, ?_, ?_, ?_, fun resp => rfl⟩
  · cases enq with
    | ctxDone => simp [submitGo]
    | recv u =>
      cases await with
      | ctxDone => simp [submitGo]
      | recv resp =>
        simp only [submitGo]
        cases hre : resp.Error with
        | none => simp
        | some e2 => simp
  · intro he
    rw [he]
    rfl
  · intro u he ha
    rw [he, ha]
    rfl
  · intro u resp he ha
    rw [he, ha]
    rfl

theorem C6_submit_cancellation_witness :
    submitGo (SelectOutcome.recv ()) SelectOutcome.ctxDone
      = ((none, some SubmitErr.ctxErr), true) :=
  (C6_submit_cancellation (SelectOutcome.recv ()) SelectOutcome.ctxDone).2.2.1 () rfl rfl

theorem C9_size_trigger_witness :
    (stepA echoPf (run echoPf 2 [Act.submit "a" [], Act.submit "b" [], Act.workerArr])
        Act.workerArr).dispatched
      = (run echoPf 2 [Act.submit "a" [], Act.submit "b" [], Act.workerArr]).dispatched
        ++ [[{ id := "a", payload := [], tok := 0 }] ++ [{ id := "b", payload := [], tok := 1 }]] ∧
    (stepA echoPf (run echoPf 2 [Act.submit "a" [], Act.submit "b" [], Act.workerArr])
        Act.workerArr).phase = Phase.idle :=
  C9_size_trigger_after_append echoPf
    (run echoPf 2 [Act.submit "a" [], Act.submit "b" [], Act.workerArr])
    [{ id := "a", payload := [], tok := 0 }] { id := "b", payload := [], tok := 1 } []
    (by decide) (by decide) (by decide) (by decide)

end NexusML
